import Mathlib

/-
Verification development for the flags-gg/go-flags feature-flag client.

The Go sources are shallowly embedded as executable Lean definitions:

* `flag` data types (flag/flag.go and the per-variant copies)
* `Memory`  : the in-memory cache backend (cache/memory.go)
* `System`  : the persistent (sqlite-backed) cache backend (cache package:
  getDBClient / InitDB / deleteAllFlags / Refresh / ShouldRefreshCache /
  Get / GetAll).  The database connection is modelled as a handle status
  (`Conn`) plus the durable table contents (`Store`); a transaction is
  modelled as a computation that only writes back to the store on commit.
  Database step failures (write errors and the like) are injected through
  an explicit failure oracle (`RStep → Bool`).
* `Client0` : the in-memory client variant (map cache + circuit breaker),
  with the retry loop `refreshLoop` shared by all client variants.
* `ClientFG`: the sqlite client variant of flags.go, whose `NewClient`
  builds a client without ever assigning the opened database handle to
  the `db` field; operations on the nil handle are modelled as `none`
  (the Go runtime panic from dereferencing a nil `*sql.DB`).
* `buildOverrides` / `isEnabledOv`: the environment-variable override
  resolver.  This component is not present under src (only its tests
  are), so it is modelled from the spec, as marked in its doc comments.

Machine integers of the Go code are modelled as `Int` (no overflow is
relevant to any claim); wall-clock time is an explicit `now : Int`
parameter in epoch seconds.
-/

/-! ## Flag data model (flag/flag.go, FlagDetails/FeatureFlag in the client files) -/

structure FlagDetails where
  name : String
  id : String
  deriving DecidableEq, Repr

structure FeatureFlag where
  enabled : Bool
  details : FlagDetails
  deriving DecidableEq, Repr

/-- ApiResponse from the client files: `intervalAllowed`, `secretMenu.sequence`,
`flags`. -/
structure ApiResponse where
  intervalAllowed : Int
  secretMenu : List String
  flags : List FeatureFlag
  deriving DecidableEq, Repr

/-! ## In-memory cache backend (cache/memory.go `Memory`) -/

/-- A dynamically typed value stored in the `sync.Map` (Go `interface{}`).
`Memory.Refresh` stores `flag.FeatureFlag` values; `Memory.GetAll` asserts
`value.(bool)`. -/
inductive GoVal where
  | b (x : Bool)
  | ff (f : FeatureFlag)
  deriving DecidableEq, Repr

structure MemoryS where
  flags : List (String × GoVal)
  cacheTTL : Int
  nextRefresh : Int
  deriving DecidableEq, Repr

/-- Map insertion (replace the binding if the key is present, else append):
the effect of `m.Flags.Store k v`. -/
def mapInsertV (l : List (String × GoVal)) (k : String) (v : GoVal) : List (String × GoVal) :=
  match l with
  | [] => [(k, v)]
  | (k₂, v₂) :: rest => if k₂ = k then (k, v) :: rest else (k₂, v₂) :: mapInsertV rest k v

/-- `Memory.Get` (cache/memory.go lines 17-27): load from the map, then a
checked type assertion to `flag.FeatureFlag`; a failed assertion returns
`(false, false)`. -/
def Memory.Get (m : MemoryS) (name : String) : Bool × Bool :=
  match List.lookup name m.flags with
  | none => (false, false)
  | some (GoVal.ff f) => (f.enabled, true)
  | some (GoVal.b _) => (false, false)

/-- `Memory.GetAll` (cache/memory.go lines 29-42): ranges over the map and
performs the UNCHECKED assertion `value.(bool)` on every stored value; a
non-`bool` value makes the Go program panic, modelled as `none`. -/
def Memory.GetAll (m : MemoryS) : Option (List FeatureFlag) :=
  m.flags.mapM (fun kv =>
    match kv.2 with
    | GoVal.b x => some ⟨x, ⟨kv.1, ""⟩⟩
    | GoVal.ff _ => none)

/-- `Memory.Refresh` (cache/memory.go lines 44-56): replaces the map with a
fresh one holding each `flag.FeatureFlag` under its name, sets
`cacheTTL := intervalAllowed` and `nextRefresh := now + intervalAllowed`. -/
def Memory.Refresh (flags : List FeatureFlag) (intervalAllowed now : Int) (_m : MemoryS) : MemoryS :=
  { flags := flags.foldl (fun acc f => mapInsertV acc f.details.name (GoVal.ff f)) []
    cacheTTL := intervalAllowed
    nextRefresh := now + intervalAllowed }

/-- `Memory.ShouldRefreshCache` (cache/memory.go lines 58-62). -/
def Memory.ShouldRefreshCache (m : MemoryS) (now : Int) : Bool :=
  decide (now > m.nextRefresh)

/-- `Memory.Init` (cache/memory.go lines 64-68): ttl 60, next refresh 90
seconds in the past. -/
def Memory.Init (now : Int) : MemoryS :=
  { flags := [], cacheTTL := 60, nextRefresh := now - 90 }

/-! ## Persistent cache backend (cache package, `System`) -/

/-- Status of the `*sql.DB` handle held in `System.DB` / `Client.db`:
`noHandle` is a nil pointer, `openH` a usable handle, `closedH` a handle on
which `Close()` has been called (every query on it errors). -/
inductive Conn where
  | noHandle
  | openH
  | closedH
  deriving DecidableEq, Repr

/-- One row of the `flags` table (`name` PRIMARY KEY, `enabled`,
`updated_at`); `Refresh` writes `updated_at` as epoch seconds. -/
structure FlagRow where
  name : String
  enabled : Bool
  updatedAt : Int
  deriving DecidableEq, Repr

/-- The durable tables: `flags` plus the `cache_metadata` key/value table
(values written as integers and read back with CAST AS INTEGER). -/
structure Store where
  flags : List FlagRow
  metadata : List (String × Int)
  deriving DecidableEq, Repr

structure SystemS where
  conn : Conn
  store : Store
  deriving DecidableEq, Repr

/-- `getDBClient`: reuses a non-nil handle, else opens one (sql.Open is lazy
and cannot fail for this fixed DSN). -/
def System.ensureConn (s : SystemS) : SystemS :=
  match s.conn with
  | Conn.noHandle => { s with conn := Conn.openH }
  | _ => s

/-- INSERT OR REPLACE into `cache_metadata`. -/
def upsertMeta (l : List (String × Int)) (k : String) (v : Int) : List (String × Int) :=
  match l with
  | [] => [(k, v)]
  | (k₂, v₂) :: rest => if k₂ = k then (k, v) :: rest else (k₂, v₂) :: upsertMeta rest k v

/-- Failure points of the `deleteAllFlags` / `Refresh` database steps, used
to inject write errors. -/
inductive RStep where
  | beginDel
  | delExec
  | commitDel
  | begin2
  | prepare2
  | insert2 (i : Nat)
  | meta2
  | commit2
  deriving DecidableEq, Repr

/-- `System.deleteAllFlags` (cache package, part_001 lines 105-128): its own
transaction that deletes every row of `flags` and COMMITS.  Any failing
step rolls back only this transaction. -/
def System.deleteAllFlags (fail : RStep → Bool) (s : SystemS) : Bool × SystemS :=
  let s₁ := System.ensureConn s
  if s₁.conn = Conn.closedH then (true, s₁)
  else if fail RStep.beginDel then (true, s₁)
  else if fail RStep.delExec then (true, s₁)
  else if fail RStep.commitDel then (true, s₁)
  else (false, { s₁ with store := { s₁.store with flags := [] } })

/-- The insert loop of `System.Refresh`: one `stmt.Exec` per flag inside the
transaction, starting from the transaction-local table contents `acc`.
An injected failure or a `name` PRIMARY KEY violation errors out. -/
def insertLoop (fail : Nat → Bool) (now : Int) : List FeatureFlag → Nat → List FlagRow → Option (List FlagRow)
  | [], _, acc => some acc
  | f :: rest, i, acc =>
    if fail i then none
    else if (acc.find? (fun r => r.name == f.details.name)).isSome then none
    else insertLoop fail now rest (i + 1) (acc ++ [⟨f.details.name, f.enabled, now⟩])

/-- `System.Refresh` (cache package, part_001 lines 130-166): FIRST runs
`deleteAllFlags` (which commits on its own), THEN a second transaction that
inserts the new rows and upserts `next_refresh_time = now + intervalAllowed`
and `cache_ttl = intervalAllowed`, committing once.  The boolean result is
`true` when the call returned an error. -/
def System.Refresh (fail : RStep → Bool) (flags : List FeatureFlag) (intervalAllowed now : Int) (s : SystemS) : Bool × SystemS :=
  let d := System.deleteAllFlags fail s
  if d.1 then (true, d.2)
  else
    let s₁ := System.ensureConn d.2
    if s₁.conn = Conn.closedH then (true, s₁)
    else if fail RStep.begin2 then (true, s₁)
    else if fail RStep.prepare2 then (true, s₁)
    else
      match insertLoop (fun i => fail (RStep.insert2 i)) now flags 0 s₁.store.flags with
      | none => (true, s₁)
      | some rows =>
        if fail RStep.meta2 then (true, s₁)
        else if fail RStep.commit2 then (true, s₁)
        else
          (false, { s₁ with store :=
            { flags := rows
              metadata := upsertMeta (upsertMeta s₁.store.metadata "next_refresh_time" (now + intervalAllowed)) "cache_ttl" intervalAllowed } })

/-- `System.ShouldRefreshCache` (cache package, part_001 lines 168-181): any
error obtaining the handle or reading `next_refresh_time` yields `true`,
else `now > next_refresh_time`. -/
def System.ShouldRefreshCache (s : SystemS) (now : Int) : Bool × SystemS :=
  let s₁ := System.ensureConn s
  if s₁.conn = Conn.closedH then (true, s₁)
  else
    match List.lookup "next_refresh_time" s₁.store.metadata with
    | none => (true, s₁)
    | some t => (decide (now > t), s₁)

/-- `System.Get` (cache package, part_001 lines 183-198): selects the row
with the queried name AND `updated_at > (SELECT CAST(value AS INTEGER) FROM
cache_metadata WHERE key matches cache_ttl)`; a missing `cache_ttl` row makes
the SQL comparison NULL, so no row qualifies.  Every error path returns
`(false, false)`. -/
def System.Get (s : SystemS) (name : String) : (Bool × Bool) × SystemS :=
  let s₁ := System.ensureConn s
  if s₁.conn = Conn.closedH then ((false, false), s₁)
  else
    match List.lookup "cache_ttl" s₁.store.metadata with
    | none => ((false, false), s₁)
    | some ttl =>
      match s₁.store.flags.find? (fun r => r.name == name && decide (ttl < r.updatedAt)) with
      | some r => ((r.enabled, true), s₁)
      | none => ((false, false), s₁)

/-- `System.GetAll` (cache package, part_001 lines 200-240): reads every
`(name, enabled)` row, and `defer db.Close()` CLOSES the handle before
returning, leaving `s.DB` pointing at a closed database. -/
def System.GetAll (s : SystemS) : Option (List FeatureFlag) × SystemS :=
  let s₁ := System.ensureConn s
  if s₁.conn = Conn.closedH then (none, { s₁ with conn := Conn.closedH })
  else
    (some (s₁.store.flags.map (fun r => ⟨r.enabled, ⟨r.name, ""⟩⟩)), { s₁ with conn := Conn.closedH })

/-! ## In-memory client variant (part_000: `Client`, `Cache`, `CircuitState`) -/

structure CircuitState where
  isOpen : Bool
  failureCount : Nat
  lastFailure : Int
  deriving DecidableEq, Repr

structure Cache0 where
  flags : List (String × Bool)
  nextRefreshTime : Int
  deriving DecidableEq, Repr

structure Client0 where
  circuitState : CircuitState
  cache : Cache0
  deriving DecidableEq, Repr

/-- The retry loop shared by every `refreshCache` variant (part_000 lines
138-153, part_002 lines 254-269, flags.go lines 193-208):

    for retry := 0; retry < maxRetries; retry++ {
        apiResp, err = c.fetchFlags()
        if err == nil { c.circuitState.failureCount = 0; break }
        c.circuitState.failureCount++
        if c.circuitState.failureCount >= c.maxRetries {
            // open the breaker and return from refreshCache
        }
        time.Sleep(...)
    }

`fetch i` is the outcome of attempt `i` (`none` = error).  Result fields:
final circuit state, the decoded response if any, whether `err != nil`
held when control left the loop (the breaker-opening early return is
included here: in both cases `refreshCache` writes nothing), and the
number of network calls made. -/
def refreshLoop (fetch : Nat → Option ApiResponse) (maxRetries : Nat) (now : Int) :
    Nat → Bool → CircuitState → CircuitState × Option ApiResponse × Bool × Nat
  | retry, lastErr, cs =>
    if retry < maxRetries then
      match fetch retry with
      | some resp => ({ cs with failureCount := 0 }, some resp, false, 1)
      | none =>
        let cs₁ := { cs with failureCount := cs.failureCount + 1 }
        if cs₁.failureCount ≥ maxRetries then
          ({ cs₁ with isOpen := true, lastFailure := now }, none, true, 1)
        else
          let r := refreshLoop fetch maxRetries now (retry + 1) true cs₁
          (r.1, r.2.1, r.2.2.1, r.2.2.2 + 1)
    else (cs, none, lastErr, 0)
  termination_by retry _ _ => maxRetries - retry

/-- Map insertion for the `map[string]bool` cache (`newFlags[name] = enabled`). -/
def mapInsertB (l : List (String × Bool)) (k : String) (v : Bool) : List (String × Bool) :=
  match l with
  | [] => [(k, v)]
  | (k₂, v₂) :: rest => if k₂ = k then (k, v) :: rest else (k₂, v₂) :: mapInsertB rest k v

/-- The attempt sequence of `Client.refreshCache` (part_000 lines 136-172):
everything after the breaker check — the retry loop starting from circuit
state `cs₀`, then on success a wholesale map replacement and
`nextRefreshTime = now + intervalAllowed`.  The `Nat` result counts network
calls. -/
def Client0.refreshAttempt (maxRetries : Nat) (fetch : Nat → Option ApiResponse) (now : Int) (c : Client0) (cs₀ : CircuitState) : Client0 × Nat :=
  let r := refreshLoop fetch maxRetries now 0 false cs₀
  match r.2.2.1, r.2.1 with
  | true, _ => ({ c with circuitState := r.1 }, r.2.2.2)
  | false, none => ({ c with circuitState := r.1 }, r.2.2.2)
  | false, some resp =>
    ({ circuitState := r.1
       cache := { flags := resp.flags.foldl (fun acc f => mapInsertB acc f.details.name f.enabled) []
                  nextRefreshTime := now + resp.intervalAllowed } }, r.2.2.2)

/-- `Client.refreshCache` (part_000 lines 127-172): the breaker check with a
60-second cooldown (`time.Minute`) guarding one `refreshAttempt`. -/
def Client0.refreshCache (maxRetries : Nat) (fetch : Nat → Option ApiResponse) (now : Int) (c : Client0) : Client0 × Nat :=
  if c.circuitState.isOpen then
    if now - c.circuitState.lastFailure < 60 then (c, 0)
    else Client0.refreshAttempt maxRetries fetch now c { c.circuitState with isOpen := false, failureCount := 0 }
  else Client0.refreshAttempt maxRetries fetch now c c.circuitState

/-- `Client.shouldRefreshCache` (part_000 lines 114-118). -/
def Client0.shouldRefreshCache (c : Client0) (now : Int) : Bool :=
  decide (now > c.cache.nextRefreshTime)

/-- `Client.checkCache` (part_000 lines 120-125). -/
def Client0.checkCache (c : Client0) (name : String) : Bool × Bool :=
  match List.lookup name c.cache.flags with
  | some e => (e, true)
  | none => (false, false)

/-- `Client.isEnabled` (part_000 lines 102-112). -/
def Client0.isEnabled (maxRetries : Nat) (fetch : Nat → Option ApiResponse) (now : Int) (c : Client0) (name : String) : Bool :=
  let c₁ := if c.shouldRefreshCache now then (Client0.refreshCache maxRetries fetch now c).1 else c
  let r := Client0.checkCache c₁ name
  if r.2 then r.1 else false

/-! ## Sqlite client variant (part_002: `Client` holding a `*sql.DB`) -/

/-- `Client.shouldRefreshCache` (part_002 lines 208-220): identical logic to
`System.ShouldRefreshCache` — a failing handle or a missing
`next_refresh_time` row yields `true`, else `now > next_refresh_time`. -/
def ClientDB.shouldRefreshCache (s : SystemS) (now : Int) : Bool × SystemS :=
  let s₁ := System.ensureConn s
  if s₁.conn = Conn.closedH then (true, s₁)
  else
    match List.lookup "next_refresh_time" s₁.store.metadata with
    | none => (true, s₁)
    | some t => (decide (now > t), s₁)

/-! ## flags.go client variant (`Client` with a directly used `db *sql.DB`) -/

structure AuthS where
  projectID : String
  agentID : String
  environmentID : String
  deriving DecidableEq, Repr

/-- The flags.go `Client`: its methods use `c.db` directly, without the
`getDBClient` nil guard of the other variants.  `db = none` is a nil
`*sql.DB` pointer. -/
structure ClientFG where
  db : Option SystemS
  circuitState : CircuitState
  auth : AuthS
  maxRetries : Nat
  deriving Repr

/-- `Client.shouldRefreshCache` (flags.go lines 156-168).  On a nil handle,
`c.db.QueryRow` dereferences the nil `*sql.DB` and the Go runtime panics
(`none`).  With a live handle the code scans the TEXT value into a
`time.Time` and then calls `time.Parse(time.RFC3339, t.String())`;
`time.Time.String()` never produces RFC3339, so the parse always fails and
the method returns `true` (a scan or query error also returns `true`). -/
def ClientFG.shouldRefreshCache (c : ClientFG) : Option Bool :=
  match c.db with
  | none => none
  | some _ => some true

/-- `Client.checkCache` (flags.go lines 170-180): nil handle panics; the
query has no ttl filter in this variant; `ErrNoRows` gives
`(false, false)`, any other error `(false, true)`. -/
def ClientFG.checkCache (c : ClientFG) (name : String) : Option (Bool × Bool) :=
  match c.db with
  | none => none
  | some s =>
    if s.conn = Conn.closedH then some (false, true)
    else
      match s.store.flags.find? (fun r => r.name == name) with
      | some r => some (r.enabled, true)
      | none => some (false, false)

/-- `Client.refreshCache` (flags.go lines 182-252): breaker (60-second
cooldown) and retry loop as in the other variants; on a fetch success the
transaction runs against `c.db` — `c.db.Begin()` on a nil handle panics
(`none`).  The metadata write is a plain INSERT (no OR REPLACE), so an
existing `next_refresh_time` row violates the PRIMARY KEY and rolls the
transaction back. -/
def ClientFG.refreshCacheFG (fetch : Nat → Option ApiResponse) (now : Int) (c : ClientFG) : Option ClientFG :=
  let go : CircuitState → Option ClientFG := fun cs₀ =>
    let r := refreshLoop fetch c.maxRetries now 0 false cs₀
    match r.2.2.1, r.2.1 with
    | true, _ => some { c with circuitState := r.1 }
    | false, none => some { c with circuitState := r.1 }
    | false, some resp =>
      match c.db with
      | none => none
      | some s =>
        if s.conn = Conn.closedH then some { c with circuitState := r.1 }
        else
          match insertLoop (fun _ => false) now resp.flags 0 [] with
          | none => some { c with circuitState := r.1 }
          | some rows =>
            if (List.lookup "next_refresh_time" s.store.metadata).isSome then
              some { c with circuitState := r.1 }
            else
              let st : Store :=
                { flags := rows
                  metadata := s.store.metadata ++ [("next_refresh_time", now + resp.intervalAllowed)] }
              some { c with circuitState := r.1, db := some { s with store := st } }
  if c.circuitState.isOpen then
    if now - c.circuitState.lastFailure < 60 then some c
    else go { c.circuitState with isOpen := false, failureCount := 0 }
  else go c.circuitState

/-- `Client.isEnabled` (flags.go lines 144-154); a panic anywhere in the
call tree propagates (`none`). -/
def ClientFG.isEnabled (fetch : Nat → Option ApiResponse) (now : Int) (c : ClientFG) (name : String) : Option Bool := do
  let sr ← c.shouldRefreshCache
  let c₁ ← if sr then c.refreshCacheFG fetch now else pure c
  let r ← c₁.checkCache name
  pure (if r.2 then r.1 else false)

/-- The `Client` literal flags.go `NewClient` builds (lines 81-91): the
database opened at line 68 is NEVER assigned to the `db` field, so the
constructed client carries a nil `*sql.DB`. -/
def newClientFGStruct : ClientFG :=
  { db := none
    circuitState := { isOpen := false, failureCount := 0, lastFailure := 0 }
    auth := { projectID := "", agentID := "", environmentID := "" }
    maxRetries := 3 }

/-! ## Override resolver (not present under src; modelled from spec 4.4/4.5) -/

/-- Flag names and environment variable names/values as character lists. -/
def envKeyStart : List Char := "FLAGS_".data

/-- Strip a literal prefix from a character list, `none` when the list does
not start with it. -/
def stripStart : List Char → List Char → Option (List Char)
  | [], cs => some cs
  | _ :: _, [] => none
  | p :: ps, c :: cs => if c = p then stripStart ps cs else none

def lowerKey (cs : List Char) : List Char := cs.map Char.toLower

def hyphenKey (cs : List Char) : List Char :=
  cs.map (fun c => if c = '_' then '-' else c)

def spaceKey (cs : List Char) : List Char :=
  cs.map (fun c => if c = '_' then ' ' else c)

/-- Modelled from the spec: the Override Resolver (spec 4.4) is not among
the source files under src (only its tests exercise it).  For every
environment variable whose name starts with `FLAGS_`, strip the prefix,
lower-case it, and register three keys — the lowercased key verbatim, with
underscores replaced by hyphens, and with underscores replaced by single
spaces — each mapped to `true` iff the value is the literal string
`true`. -/
def buildOverrides (env : List (List Char × List Char)) : List (List Char × Bool) :=
  env.foldr (fun kv acc =>
    match stripStart envKeyStart kv.1 with
    | none => acc
    | some rest =>
      let key := lowerKey rest
      let v := kv.2 == "true".data
      (key, v) :: (hyphenKey key, v) :: (spaceKey key, v) :: acc) []

/-- Modelled from the spec: resolution steps 2-3 of spec 4.5 — recompute
the override table from the environment and return a matching override
without consulting the cache at all; otherwise query the cache, treating
absence as `false`.  Step 1 (the refresh attempt) only rewrites the cache
contents, so it is captured by quantifying over the cache lookup function
`cacheGet` at resolution time. -/
def isEnabledOv (env : List (List Char × List Char)) (cacheGet : List Char → Bool × Bool) (name : List Char) : Bool :=
  match List.lookup name (buildOverrides env) with
  | some b => b
  | none =>
    let r := cacheGet name
    if r.2 then r.1 else false

/-! ## Helper lemmas -/

theorem stripStart_append (p cs : List Char) : stripStart p (p ++ cs) = some cs := by
  induction p with
  | nil => rfl
  | cons c ps ih => simp [stripStart, ih]

theorem lookup_mem_true (q : List Char) (l : List (List Char × Bool))
    (h1 : ∀ kv ∈ l, kv.2 = true) (h2 : ∃ kv ∈ l, kv.1 = q) :
    List.lookup q l = some true := by
  induction l with
  | nil => rcases h2 with ⟨kv, hm, _⟩; cases hm
  | cons kv rest ih =>
    by_cases hq : q = kv.1
    · have := h1 kv (List.mem_cons_self kv rest)
      simp [List.lookup, hq, this]
    · have hne : (q == kv.1) = false := by simp [hq]
      simp only [List.lookup, hne]
      apply ih (fun a ha => h1 a (List.mem_cons_of_mem kv ha))
      rcases h2 with ⟨a, hm, he⟩
      rcases List.mem_cons.1 hm with rfl | hm₂
      · exact absurd he.symm hq
      · exact ⟨a, hm₂, he⟩

theorem lookup_mapInsertB_ne (l : List (String × Bool)) (k : String) (v : Bool) (q : String)
    (h : q ≠ k) : List.lookup q (mapInsertB l k v) = List.lookup q l := by
  induction l with
  | nil =>
    have hne : (q == k) = false := beq_eq_false_iff_ne.mpr h
    simp [mapInsertB, List.lookup, hne]
  | cons kv rest ih =>
    obtain ⟨k₂, v₂⟩ := kv
    by_cases hk : k₂ = k
    · subst hk
      have hne : (q == k₂) = false := by simp [h]
      simp [mapInsertB, List.lookup, hne]
    · simp only [mapInsertB, if_neg hk]
      by_cases hq : q = k₂
      · simp [List.lookup, hq]
      · have h₁ : (q == k₂) = false := by simp [hq]
        simp [List.lookup, h₁, ih]

theorem lookup_mapInsertV_self (l : List (String × GoVal)) (k : String) (v : GoVal) :
    List.lookup k (mapInsertV l k v) = some v := by
  induction l with
  | nil => simp [mapInsertV, List.lookup]
  | cons kv rest ih =>
    obtain ⟨k₂, v₂⟩ := kv
    by_cases hk : k₂ = k
    · simp [mapInsertV, hk, List.lookup]
    · have h₁ : (k == k₂) = false := beq_eq_false_iff_ne.mpr (fun h => hk h.symm)
      simp [mapInsertV, hk, List.lookup, h₁, ih]

theorem lookup_mapInsertV_ne (l : List (String × GoVal)) (k : String) (v : GoVal) (q : String)
    (h : q ≠ k) : List.lookup q (mapInsertV l k v) = List.lookup q l := by
  induction l with
  | nil =>
    have hne : (q == k) = false := beq_eq_false_iff_ne.mpr h
    simp [mapInsertV, List.lookup, hne]
  | cons kv rest ih =>
    obtain ⟨k₂, v₂⟩ := kv
    by_cases hk : k₂ = k
    · subst hk
      have hne : (q == k₂) = false := by simp [h]
      simp [mapInsertV, List.lookup, hne]
    · simp only [mapInsertV, if_neg hk]
      by_cases hq : q = k₂
      · simp [List.lookup, hq]
      · have h₁ : (q == k₂) = false := by simp [hq]
        simp [List.lookup, h₁, ih]

theorem lookup_upsertMeta_self (l : List (String × Int)) (k : String) (v : Int) :
    List.lookup k (upsertMeta l k v) = some v := by
  induction l with
  | nil => simp [upsertMeta, List.lookup]
  | cons kv rest ih =>
    obtain ⟨k₂, v₂⟩ := kv
    by_cases hk : k₂ = k
    · simp [upsertMeta, hk, List.lookup]
    · have h₁ : (k == k₂) = false := beq_eq_false_iff_ne.mpr (fun h => hk h.symm)
      simp [upsertMeta, hk, List.lookup, h₁, ih]

theorem lookup_upsertMeta_ne (l : List (String × Int)) (k : String) (v : Int) (q : String)
    (h : q ≠ k) : List.lookup q (upsertMeta l k v) = List.lookup q l := by
  induction l with
  | nil =>
    have hne : (q == k) = false := beq_eq_false_iff_ne.mpr h
    simp [upsertMeta, List.lookup, hne]
  | cons kv rest ih =>
    obtain ⟨k₂, v₂⟩ := kv
    by_cases hk : k₂ = k
    · subst hk
      have hne : (q == k₂) = false := by simp [h]
      simp [upsertMeta, List.lookup, hne]
    · simp only [upsertMeta, if_neg hk]
      by_cases hq : q = k₂
      · simp [List.lookup, hq]
      · have h₁ : (q == k₂) = false := by simp [hq]
        simp [List.lookup, h₁, ih]

theorem refreshLoop_calls_le (fetch : Nat → Option ApiResponse) (mr : Nat) (now : Int) :
    ∀ k retry lastErr cs, mr - retry ≤ k →
      (refreshLoop fetch mr now retry lastErr cs).2.2.2 ≤ mr - retry := by
  intro k
  induction k with
  | zero =>
    intro retry lastErr cs h
    have hge : ¬ retry < mr := by omega
    rw [refreshLoop]
    simp [hge]
  | succ n ih =>
    intro retry lastErr cs h
    rw [refreshLoop]
    by_cases hlt : retry < mr
    · simp only [hlt, if_true]
      cases hf : fetch retry with
      | some resp => simp; omega
      | none =>
        by_cases hfc : cs.failureCount + 1 ≥ mr
        · simp only [hfc, ge_iff_le, if_true]
          omega
        · have hfc₂ : ¬ cs.failureCount + 1 ≥ mr := hfc
          simp only [hfc₂, ge_iff_le, if_false]
          have := ih (retry + 1) true { cs with failureCount := cs.failureCount + 1 } (by omega)
          omega
    · simp [hlt]

theorem refreshLoop_calls_pos (fetch : Nat → Option ApiResponse) (mr : Nat) (now : Int)
    (retry : Nat) (lastErr : Bool) (cs : CircuitState) (h : retry < mr) :
    1 ≤ (refreshLoop fetch mr now retry lastErr cs).2.2.2 := by
  rw [refreshLoop]
  simp only [h, if_true]
  cases fetch retry with
  | some resp => simp
  | none =>
    by_cases hfc : cs.failureCount + 1 ≥ mr
    · simp [hfc]
    · simp [hfc]

theorem refreshLoop_resp_src (fetch : Nat → Option ApiResponse) (mr : Nat) (now : Int) :
    ∀ k retry lastErr cs, mr - retry ≤ k →
      (refreshLoop fetch mr now retry lastErr cs).2.1 = none ∨
      ∃ i r, fetch i = some r ∧ (refreshLoop fetch mr now retry lastErr cs).2.1 = some r := by
  intro k
  induction k with
  | zero =>
    intro retry lastErr cs h
    have hge : ¬ retry < mr := by omega
    rw [refreshLoop]
    simp [hge]
  | succ n ih =>
    intro retry lastErr cs h
    rw [refreshLoop]
    by_cases hlt : retry < mr
    · simp only [hlt, if_true]
      cases hf : fetch retry with
      | some resp => exact Or.inr ⟨retry, resp, hf, rfl⟩
      | none =>
        by_cases hfc : cs.failureCount + 1 ≥ mr
        · simp [hfc]
        · have hfc₂ : ¬ cs.failureCount + 1 ≥ mr := hfc
          simp only [hfc₂, ge_iff_le, if_false]
          exact ih (retry + 1) true { cs with failureCount := cs.failureCount + 1 } (by omega)
    · simp [hlt]


theorem refreshAttempt_calls (mr : Nat) (fetch : Nat → Option ApiResponse) (now : Int)
    (c : Client0) (cs₀ : CircuitState) :
    (Client0.refreshAttempt mr fetch now c cs₀).2 = (refreshLoop fetch mr now 0 false cs₀).2.2.2 := by
  unfold Client0.refreshAttempt
  rcases hr : refreshLoop fetch mr now 0 false cs₀ with ⟨cs₁, resp, err, n⟩
  rcases resp with _ | r <;> cases err <;> simp [hr]

theorem refreshAttempt_cache_cases (mr : Nat) (fetch : Nat → Option ApiResponse) (now : Int)
    (c : Client0) (cs₀ : CircuitState) :
    (Client0.refreshAttempt mr fetch now c cs₀).1.cache = c.cache ∨
    ∃ i resp, fetch i = some resp ∧
      (Client0.refreshAttempt mr fetch now c cs₀).1.cache =
        { flags := resp.flags.foldl (fun acc f => mapInsertB acc f.details.name f.enabled) []
          nextRefreshTime := now + resp.intervalAllowed } := by
  unfold Client0.refreshAttempt
  have hsrc := refreshLoop_resp_src fetch mr now mr 0 false cs₀ (by omega)
  rcases hr : refreshLoop fetch mr now 0 false cs₀ with ⟨cs₁, resp, err, n⟩
  rw [hr] at hsrc
  rcases resp with _ | r
  · left; cases err <;> simp [hr]
  · cases err
    · rcases hsrc with hnone | ⟨i, r₂, hi, he⟩
      · simp at hnone
      · simp only [Option.some.injEq] at he
        subst he
        exact Or.inr ⟨i, r, hi, by simp [hr]⟩
    · left; simp [hr]

theorem refreshCache_cache_cases (mr : Nat) (fetch : Nat → Option ApiResponse) (now : Int)
    (c : Client0) :
    (Client0.refreshCache mr fetch now c).1.cache = c.cache ∨
    ∃ i resp, fetch i = some resp ∧
      (Client0.refreshCache mr fetch now c).1.cache =
        { flags := resp.flags.foldl (fun acc f => mapInsertB acc f.details.name f.enabled) []
          nextRefreshTime := now + resp.intervalAllowed } := by
  unfold Client0.refreshCache
  by_cases hop : c.circuitState.isOpen
  · by_cases hcd : now - c.circuitState.lastFailure < 60
    · simp [hop, hcd]
    · simpa [hop, hcd] using
        refreshAttempt_cache_cases mr fetch now c { c.circuitState with isOpen := false, failureCount := 0 }
  · simpa [hop] using refreshAttempt_cache_cases mr fetch now c c.circuitState

theorem lookup_buildB_none (flags : List FeatureFlag) (name : String)
    (h : ∀ f ∈ flags, f.details.name ≠ name) :
    ∀ acc, List.lookup name acc = none →
      List.lookup name (flags.foldl (fun acc f => mapInsertB acc f.details.name f.enabled) acc) = none := by
  induction flags with
  | nil => intro acc ha; simpa using ha
  | cons f rest ih =>
    intro acc ha
    simp only [List.foldl_cons]
    apply ih (fun g hg => h g (List.mem_cons_of_mem f hg))
    rw [lookup_mapInsertB_ne]
    · exact ha
    · exact fun he => (h f (List.mem_cons_self f rest)) he.symm

theorem lookup_buildV (name : String) :
    ∀ (flags : List FeatureFlag) (acc : List (String × GoVal)),
      (flags.map (fun f => f.details.name)).Nodup →
      List.lookup name (flags.foldl (fun acc f => mapInsertV acc f.details.name (GoVal.ff f)) acc) =
        (match flags.find? (fun f => f.details.name == name) with
         | some f => some (GoVal.ff f)
         | none => List.lookup name acc) := by
  intro flags
  induction flags with
  | nil => intro acc _; simp
  | cons f rest ih =>
    intro acc hnd
    simp only [List.map_cons, List.nodup_cons] at hnd
    simp only [List.foldl_cons]
    rw [ih (mapInsertV acc f.details.name (GoVal.ff f)) hnd.2]
    by_cases he : f.details.name = name
    · have hrestnone : rest.find? (fun g => g.details.name == name) = none := by
        rw [List.find?_eq_none]
        intro g hg
        simp only [beq_iff_eq]
        intro hgname
        exact hnd.1 (he ▸ hgname ▸ List.mem_map_of_mem (fun x => x.details.name) hg)
      rw [hrestnone, List.find?_cons]
      have hbeq : (f.details.name == name) = true := beq_iff_eq.mpr he
      rw [hbeq]
      rw [← he, lookup_mapInsertV_self]
    · have hbeq : (f.details.name == name) = false := beq_eq_false_iff_ne.mpr he
      rw [List.find?_cons, hbeq]
      cases hf : rest.find? (fun g => g.details.name == name) with
      | some g => simp [hf]
      | none =>
        simp only [hf]
        exact lookup_mapInsertV_ne acc f.details.name (GoVal.ff f) name (fun h => he h.symm)

theorem insertLoop_success (now : Int) :
    ∀ (flags : List FeatureFlag) (i : Nat) (acc : List FlagRow),
      (flags.map (fun f => f.details.name)).Nodup →
      (∀ f ∈ flags, acc.find? (fun r => r.name == f.details.name) = none) →
      insertLoop (fun _ => false) now flags i acc =
        some (acc ++ flags.map (fun f => ⟨f.details.name, f.enabled, now⟩)) := by
  intro flags
  induction flags with
  | nil => intro i acc _ _; simp [insertLoop]
  | cons f rest ih =>
    intro i acc hnd hdisj
    simp only [List.map_cons, List.nodup_cons] at hnd
    unfold insertLoop
    rw [hdisj f (List.mem_cons_self f rest)]
    simp only [Option.isSome_none, Bool.false_eq_true, if_false, ite_false, if_neg (by simp : ¬ false = true)]
    have hd : ∀ g ∈ rest,
        List.find? (fun r => r.name == g.details.name) (acc ++ [⟨f.details.name, f.enabled, now⟩]) = none := by
      intro g hg
      rw [List.find?_append, hdisj g (List.mem_cons_of_mem f hg)]
      have hne : (f.details.name == g.details.name) = false := by
        refine beq_eq_false_iff_ne.mpr (fun h => hnd.1 ?_)
        exact h ▸ List.mem_map_of_mem (fun x => x.details.name) hg
      simp [List.find?, hne]
    exact (ih (i + 1) _ hnd.2 hd).trans (by simp)

theorem ensureConn_store (s : SystemS) : (System.ensureConn s).store = s.store := by
  cases hc : s.conn <;> simp [System.ensureConn, hc]

theorem ensureConn_conn (s : SystemS) (h : s.conn ≠ Conn.closedH) :
    (System.ensureConn s).conn ≠ Conn.closedH := by
  cases hc : s.conn with
  | noHandle => simp [System.ensureConn, hc]
  | openH => simp [System.ensureConn, hc]
  | closedH => exact absurd hc h

/-! ## Claim theorems -/

/-- C1: the spec claims the refresh of every cache store is all-or-nothing — a
refresh that fails partway must leave `getAll` returning exactly the
pre-refresh record set.  The persistent backend violates this:
`System.Refresh` first COMMITS `deleteAllFlags` in its own transaction and
only then opens the insert transaction, so a failure of the first INSERT
leaves the store empty.  Concretely: a store holding the record
(old, enabled) refreshed with the single record (new, enabled) under a
write error at insert step 0 reports an error, after which `GetAll`
returns the empty set — neither the pre-refresh set {old} nor the new set
{new}. -/
theorem systemRefresh_midway_failure_empties_store :
    (System.Refresh (fun st => st = RStep.insert2 0) [⟨true, ⟨"new", "2"⟩⟩] 60 1000
        ⟨Conn.openH, ⟨[⟨"old", true, 100⟩], [("cache_ttl", 60), ("next_refresh_time", 200)]⟩⟩).1 = true ∧
    (System.GetAll (System.Refresh (fun st => st = RStep.insert2 0) [⟨true, ⟨"new", "2"⟩⟩] 60 1000
        ⟨Conn.openH, ⟨[⟨"old", true, 100⟩], [("cache_ttl", 60), ("next_refresh_time", 200)]⟩⟩).2).1 = some [] ∧
    (System.GetAll ⟨Conn.openH, ⟨[⟨"old", true, 100⟩], [("cache_ttl", 60), ("next_refresh_time", 200)]⟩⟩).1 =
      some [⟨true, ⟨"old", ""⟩⟩] := by
  decide

/-- C4: the spec claims `isEnabled` always returns a boolean and never
panics, for every client state including an unopened backing store.  In
the flags.go variant, `NewClient` never assigns the opened database handle
to the `db` field of the client, so the client it constructs carries a nil
`*sql.DB`; `isEnabled` then dereferences the nil handle inside
`shouldRefreshCache` and the Go runtime panics (modelled as `none`)
instead of returning a boolean. -/
theorem isEnabledFG_nil_db_panics :
    ClientFG.isEnabled (fun _ => none) 0 newClientFGStruct "test-flag" = none := by
  rfl

/-- C9: the implicit claim is that the value type `Memory.GetAll`
asserts is the type `Memory.Refresh` stores.  It is not: `Refresh` stores
whole `flag.FeatureFlag` values while `GetAll` runs the unchecked
assertion `value.(bool)`, which panics on every entry a refresh stored.
Concretely: after `Refresh` stores one flag, `Get` finds it as a
`FeatureFlag` but `GetAll` panics (`none`). -/
theorem memoryGetAll_asserts_wrong_type :
    Memory.GetAll (Memory.Refresh [⟨true, ⟨"x", "1"⟩⟩] 60 1000 (Memory.Init 1000)) = none ∧
    Memory.Get (Memory.Refresh [⟨true, ⟨"x", "1"⟩⟩] 60 1000 (Memory.Init 1000)) "x" = (true, true) := by
  decide

/-- C10: the implicit claim is that `System.GetAll` is read-only —
later `Get`, `ShouldRefreshCache` and `Refresh` calls behave as if it had
not run.  It is not: `GetAll` runs `defer db.Close()` on the shared
handle, so on a store where `Get` answered `(true, true)` and
`ShouldRefreshCache` answered `false`, the same calls after one `GetAll`
answer `(false, false)` and `true`, and `Refresh` errors. -/
theorem systemGetAll_closes_shared_handle :
    (System.Get ⟨Conn.openH, ⟨[⟨"x", true, 100⟩], [("cache_ttl", 60), ("next_refresh_time", 999)]⟩⟩ "x").1 = (true, true) ∧
    (System.ShouldRefreshCache ⟨Conn.openH, ⟨[⟨"x", true, 100⟩], [("cache_ttl", 60), ("next_refresh_time", 999)]⟩⟩ 500).1 = false ∧
    (System.GetAll ⟨Conn.openH, ⟨[⟨"x", true, 100⟩], [("cache_ttl", 60), ("next_refresh_time", 999)]⟩⟩).2.conn = Conn.closedH ∧
    (System.Get (System.GetAll ⟨Conn.openH, ⟨[⟨"x", true, 100⟩], [("cache_ttl", 60), ("next_refresh_time", 999)]⟩⟩).2 "x").1 = (false, false) ∧
    (System.ShouldRefreshCache (System.GetAll ⟨Conn.openH, ⟨[⟨"x", true, 100⟩], [("cache_ttl", 60), ("next_refresh_time", 999)]⟩⟩).2 500).1 = true ∧
    (System.Refresh (fun _ => false) [] 60 500 (System.GetAll ⟨Conn.openH, ⟨[⟨"x", true, 100⟩], [("cache_ttl", 60), ("next_refresh_time", 999)]⟩⟩).2).1 = true := by
  decide

/-- C6 counterexample: the claim states the persistent backend rejects
stale rows — rows whose age exceeds the `cache_ttl` metadata value.  It
does not: `System.Get` compares the raw `updated_at` epoch value with the
ttl duration, so a row written at epoch second 1000 with ttl 60 is served
with `found = true` even at a current time of 1000000000, when its age
999999000 far exceeds the ttl. -/
theorem systemGet_serves_stale_row :
    (System.Get ⟨Conn.openH, ⟨[⟨"x", true, 1000⟩], [("cache_ttl", 60), ("next_refresh_time", 9)]⟩⟩ "x").1 = (true, true) ∧
    ((1000000000 : Int) - 1000 > 60) := by
  decide

/-- C2: for every variable name N, the environment `FLAGS_<N> = true`
makes the resolver answer `true` when queried under any of the three
normalized forms of N (lowercased verbatim, underscores to hyphens,
underscores to single spaces), for EVERY cache lookup function — in
particular one holding a record with `enabled = false` for the queried
name — because a matching override is returned without consulting the
cache at all. -/
theorem override_env_true_wins (N : List Char) (cacheGet : List Char → Bool × Bool) (q : List Char)
    (hq : q = lowerKey N ∨ q = hyphenKey (lowerKey N) ∨ q = spaceKey (lowerKey N)) :
    isEnabledOv [(envKeyStart ++ N, "true".data)] cacheGet q = true := by
  have hb : buildOverrides [(envKeyStart ++ N, "true".data)] =
      [(lowerKey N, true), (hyphenKey (lowerKey N), true), (spaceKey (lowerKey N), true)] := by
    simp [buildOverrides, stripStart_append]
  unfold isEnabledOv
  rw [hb, lookup_mem_true]
  · intro kv hkv
    simp at hkv
    rcases hkv with h | h | h <;> rw [h]
  · rcases hq with h | h | h
    · exact ⟨(lowerKey N, true), by simp, h.symm⟩
    · exact ⟨(hyphenKey (lowerKey N), true), by simp, h.symm⟩
    · exact ⟨(spaceKey (lowerKey N), true), by simp, h.symm⟩

/-- C2 witness: `FLAGS_MY_FLAG=true` with a cache that reports
`(false, true)` (present and disabled) for every name still answers
`true` for the query `my-flag`. -/
theorem override_env_true_wins_witness :
    isEnabledOv [(envKeyStart ++ "MY_FLAG".data, "true".data)] (fun _ => (false, true)) "my-flag".data = true :=
  override_env_true_wins "MY_FLAG".data (fun _ => (false, true)) "my-flag".data (by decide)

/-- C3: for every client whose breaker is open — (a) while the 60-second
cooldown has not elapsed, `refreshCache` returns the client unchanged
(circuit and cache snapshot intact) having made zero network calls; (b)
once the cooldown has elapsed, `refreshCache` behaves exactly as one
attempt sequence started from the breaker closed and the failure count
reset to zero, and that sequence makes at least one and at most
`maxRetries` network calls. -/
theorem breaker_open_refresh (mr : Nat) (fetch : Nat → Option ApiResponse) (now : Int)
    (c : Client0) (h : c.circuitState.isOpen = true) :
    (now - c.circuitState.lastFailure < 60 →
      Client0.refreshCache mr fetch now c = (c, 0)) ∧
    (60 ≤ now - c.circuitState.lastFailure →
      Client0.refreshCache mr fetch now c =
        Client0.refreshAttempt mr fetch now c { c.circuitState with isOpen := false, failureCount := 0 } ∧
      (1 ≤ mr →
        1 ≤ (Client0.refreshCache mr fetch now c).2 ∧ (Client0.refreshCache mr fetch now c).2 ≤ mr)) := by
  constructor
  · intro hcd
    simp [Client0.refreshCache, h, hcd]
  · intro hcd
    have hcd₂ : ¬ now - c.circuitState.lastFailure < 60 := by omega
    have heq : Client0.refreshCache mr fetch now c =
        Client0.refreshAttempt mr fetch now c { c.circuitState with isOpen := false, failureCount := 0 } := by
      simp [Client0.refreshCache, h, hcd₂]
    refine ⟨heq, fun hmr => ?_⟩
    rw [heq, refreshAttempt_calls]
    constructor
    · exact refreshLoop_calls_pos fetch mr now 0 false _ (by omega)
    · have := refreshLoop_calls_le fetch mr now mr 0 false
        { c.circuitState with isOpen := false, failureCount := 0 } (by omega)
      omega

/-- C3 witness: an open breaker 10 seconds after the last failure ignores
the refresh entirely (zero calls, state unchanged); the same client 110
seconds after the last failure runs exactly the closed-breaker attempt
sequence, making between 1 and 3 calls. -/
theorem breaker_open_refresh_witness :
    Client0.refreshCache 3 (fun _ => none) 100 ⟨⟨true, 2, 90⟩, ⟨[("a", true)], 50⟩⟩ =
      (⟨⟨true, 2, 90⟩, ⟨[("a", true)], 50⟩⟩, 0) ∧
    Client0.refreshCache 3 (fun _ => none) 200 ⟨⟨true, 2, 90⟩, ⟨[("a", true)], 50⟩⟩ =
      Client0.refreshAttempt 3 (fun _ => none) 200 ⟨⟨true, 2, 90⟩, ⟨[("a", true)], 50⟩⟩ ⟨false, 0, 90⟩ ∧
    1 ≤ (Client0.refreshCache 3 (fun _ => none) 200 ⟨⟨true, 2, 90⟩, ⟨[("a", true)], 50⟩⟩).2 ∧
    (Client0.refreshCache 3 (fun _ => none) 200 ⟨⟨true, 2, 90⟩, ⟨[("a", true)], 50⟩⟩).2 ≤ 3 := by
  have h₁ := breaker_open_refresh 3 (fun _ => none) 100 ⟨⟨true, 2, 90⟩, ⟨[("a", true)], 50⟩⟩ rfl
  have h₂ := breaker_open_refresh 3 (fun _ => none) 200 ⟨⟨true, 2, 90⟩, ⟨[("a", true)], 50⟩⟩ rfl
  refine ⟨h₁.1 (by decide), (h₂.2 (by decide)).1, ((h₂.2 (by decide)).2 (by decide)).1,
    ((h₂.2 (by decide)).2 (by decide)).2⟩

/-- C5: for every flag name absent from the cache, with no matching
override (the src `isEnabled` consults no overrides) and never returned by
any fetch attempt, `isEnabled` returns `false` — absence is disabled,
never an error. -/
theorem never_fetched_is_false (mr : Nat) (fetch : Nat → Option ApiResponse) (now : Int)
    (c : Client0) (name : String)
    (hc : List.lookup name c.cache.flags = none)
    (hf : ∀ i r, fetch i = some r → ∀ f ∈ r.flags, f.details.name ≠ name) :
    Client0.isEnabled mr fetch now c name = false := by
  unfold Client0.isEnabled
  by_cases hs : c.shouldRefreshCache now
  · simp only [hs, if_true]
    rcases refreshCache_cache_cases mr fetch now c with hcc | ⟨i, resp, hi, hcc⟩
    · simp [Client0.checkCache, hcc, hc]
    · have hnone : List.lookup name (Client0.refreshCache mr fetch now c).1.cache.flags = none := by
        rw [hcc]
        exact lookup_buildB_none resp.flags name (hf i resp hi) [] rfl
      simp [Client0.checkCache, hnone]
  · simp [hs, Client0.checkCache, hc]

/-- C5 witness: a stale client whose cache holds only flag `a`, with every
fetch failing, answers `false` for the never-fetched name `z`. -/
theorem never_fetched_is_false_witness :
    Client0.isEnabled 3 (fun _ => none) 100 ⟨⟨false, 0, 0⟩, ⟨[("a", true)], 50⟩⟩ "z" = false :=
  never_fetched_is_false 3 (fun _ => none) 100 ⟨⟨false, 0, 0⟩, ⟨[("a", true)], 50⟩⟩ "z"
    (by decide) (fun i r h => by cases h)

/-- C7: a successful refresh with a record set `flags` (distinct names, as
names are the unique key) and interval `interval` replaces the cache
wholesale: afterwards the in-memory backend answers every `Get` from
exactly the new record set — in particular a flag absent from `flags` gets
`found = false` — and its deadline is `now + interval`; the persistent
backend commits exactly the rows of `flags` and a
`next_refresh_time = now + interval` metadata entry. -/
theorem refresh_replaces_wholesale (flags : List FeatureFlag) (interval now : Int)
    (m : MemoryS) (s : SystemS)
    (hnd : (flags.map (fun f => f.details.name)).Nodup) (hs : s.conn ≠ Conn.closedH) :
    (∀ name, Memory.Get (Memory.Refresh flags interval now m) name =
      (match flags.find? (fun f => f.details.name == name) with
       | some f => (f.enabled, true)
       | none => (false, false))) ∧
    (Memory.Refresh flags interval now m).nextRefresh = now + interval ∧
    (System.Refresh (fun _ => false) flags interval now s).1 = false ∧
    (System.Refresh (fun _ => false) flags interval now s).2.store.flags =
      flags.map (fun f => ⟨f.details.name, f.enabled, now⟩) ∧
    List.lookup "next_refresh_time" (System.Refresh (fun _ => false) flags interval now s).2.store.metadata =
      some (now + interval) := by
  have hmem : ∀ name, Memory.Get (Memory.Refresh flags interval now m) name =
      (match flags.find? (fun f => f.details.name == name) with
       | some f => (f.enabled, true)
       | none => (false, false)) := by
    intro name
    unfold Memory.Get Memory.Refresh
    rw [lookup_buildV name flags [] hnd]
    cases hf : flags.find? (fun f => f.details.name == name) <;> simp [hf, List.lookup]
  have hins : insertLoop (fun _ => false) now flags 0 [] =
      some (flags.map (fun f => ⟨f.details.name, f.enabled, now⟩)) := by
    have := insertLoop_success now flags 0 [] hnd (fun f _ => rfl)
    simpa using this
  obtain ⟨cn, st⟩ := s
  have href : System.Refresh (fun _ => false) flags interval now ⟨cn, st⟩ =
      (false, ⟨Conn.openH,
        { flags := flags.map (fun f => ⟨f.details.name, f.enabled, now⟩)
          metadata := upsertMeta (upsertMeta st.metadata "next_refresh_time" (now + interval))
            "cache_ttl" interval }⟩) := by
    cases cn with
    | closedH => exact absurd rfl hs
    | noHandle => simp [System.Refresh, System.deleteAllFlags, System.ensureConn, hins]
    | openH => simp [System.Refresh, System.deleteAllFlags, System.ensureConn, hins]
  refine ⟨hmem, by simp [Memory.Refresh], by rw [href], by rw [href], ?_⟩
  rw [href]
  simp only
  rw [lookup_upsertMeta_ne _ _ _ _ (by decide), lookup_upsertMeta_self]

/-- C7 witness: refreshing a store holding only `old` with the single
record (x, enabled, interval 60) at time 1000: `old` is no longer
retrievable, `x` is enabled, the memory deadline is 1060, and the
persistent store commits exactly the row (x, true, 1000) with
`next_refresh_time = 1060`. -/
theorem refresh_replaces_wholesale_witness :
    Memory.Get (Memory.Refresh [⟨true, ⟨"x", "1"⟩⟩] 60 1000 (Memory.Init 0)) "old" = (false, false) ∧
    Memory.Get (Memory.Refresh [⟨true, ⟨"x", "1"⟩⟩] 60 1000 (Memory.Init 0)) "x" = (true, true) ∧
    (Memory.Refresh [⟨true, ⟨"x", "1"⟩⟩] 60 1000 (Memory.Init 0)).nextRefresh = 1060 ∧
    (System.Refresh (fun _ => false) [⟨true, ⟨"x", "1"⟩⟩] 60 1000 ⟨Conn.openH, ⟨[⟨"old", false, 10⟩], []⟩⟩).1 = false ∧
    (System.Refresh (fun _ => false) [⟨true, ⟨"x", "1"⟩⟩] 60 1000 ⟨Conn.openH, ⟨[⟨"old", false, 10⟩], []⟩⟩).2.store.flags =
      [⟨"x", true, 1000⟩] ∧
    List.lookup "next_refresh_time"
      (System.Refresh (fun _ => false) [⟨true, ⟨"x", "1"⟩⟩] 60 1000 ⟨Conn.openH, ⟨[⟨"old", false, 10⟩], []⟩⟩).2.store.metadata =
      some 1060 := by
  have h := refresh_replaces_wholesale [⟨true, ⟨"x", "1"⟩⟩] 60 1000 (Memory.Init 0)
    ⟨Conn.openH, ⟨[⟨"old", false, 10⟩], []⟩⟩ (by decide) (by decide)
  exact ⟨(h.1 "old").trans (by decide), (h.1 "x").trans (by decide), h.2.1.trans (by decide),
    h.2.2.1, (h.2.2.2.1).trans (by decide), (h.2.2.2.2).trans (by decide)⟩

/-- C8: any internal error while determining the refresh deadline — an
unusable (closed) database handle, or a missing `next_refresh_time`
metadata row (uninitialized metadata) — makes `shouldRefreshCache` return
`true`: it fails open toward refreshing. -/
theorem should_refresh_fails_open (s : SystemS) (now : Int)
    (h : s.conn = Conn.closedH ∨ List.lookup "next_refresh_time" s.store.metadata = none) :
    (ClientDB.shouldRefreshCache s now).1 = true := by
  rcases h with h | h
  · simp [ClientDB.shouldRefreshCache, System.ensureConn, h]
  · cases hc : s.conn with
    | closedH => simp [ClientDB.shouldRefreshCache, System.ensureConn, hc]
    | noHandle => simp [ClientDB.shouldRefreshCache, System.ensureConn, hc, h]
    | openH => simp [ClientDB.shouldRefreshCache, System.ensureConn, hc, h]

/-- C8 witness: a client with no database handle yet and empty metadata
(uninitialized) reports that the cache should refresh. -/
theorem should_refresh_fails_open_witness :
    (ClientDB.shouldRefreshCache ⟨Conn.noHandle, ⟨[], []⟩⟩ 0).1 = true :=
  should_refresh_fails_open ⟨Conn.noHandle, ⟨[], []⟩⟩ 0 (Or.inr rfl)

/-- C6 (amended): both backends return `found = false` when the name is
absent; the persistent backend additionally filters rows by the raw
comparison `updated_at > cache_ttl` — the stored epoch timestamp against
the ttl duration, NOT the record age — returning `found = true` exactly
when a row with the queried name passes that filter and the `cache_ttl`
metadata row exists (a missing `cache_ttl` row rejects everything).
The get of neither backend consults the current time, so no age-based expiry
is enforced. -/
theorem get_absent_or_filtered (m : MemoryS) (s : SystemS) (name : String)
    (hs : s.conn ≠ Conn.closedH) :
    (List.lookup name m.flags = none → Memory.Get m name = (false, false)) ∧
    (List.lookup "cache_ttl" s.store.metadata = none → (System.Get s name).1 = (false, false)) ∧
    (∀ ttl, List.lookup "cache_ttl" s.store.metadata = some ttl →
      ((System.Get s name).1.2 = true ↔
        ∃ r ∈ s.store.flags, r.name = name ∧ ttl < r.updatedAt)) := by
  have hconn : (System.ensureConn s).conn = Conn.openH := by
    cases hc : s.conn with
    | noHandle => simp [System.ensureConn, hc]
    | openH => simp [System.ensureConn, hc]
    | closedH => exact absurd hc hs
  have hst : (System.ensureConn s).store = s.store := ensureConn_store s
  refine ⟨?_, ?_, ?_⟩
  · intro h
    simp [Memory.Get, h]
  · intro h
    simp [System.Get, hconn, hst, h]
  · intro ttl h
    simp only [System.Get, hconn, hst, h]
    constructor
    · intro hfound
      cases hf : s.store.flags.find? (fun r => r.name == name && decide (ttl < r.updatedAt)) with
      | none => simp [hf] at hfound
      | some r =>
        have hp := List.find?_some hf
        have hm := List.mem_of_find?_eq_some hf
        simp only [Bool.and_eq_true, beq_iff_eq, decide_eq_true_eq] at hp
        exact ⟨r, hm, hp.1, hp.2⟩
    · rintro ⟨r, hm, hname, httl⟩
      have hsome : (s.store.flags.find? (fun r => r.name == name && decide (ttl < r.updatedAt))).isSome := by
        rw [List.find?_isSome]
        exact ⟨r, hm, by simp [hname, httl]⟩
      cases hf : s.store.flags.find? (fun r => r.name == name && decide (ttl < r.updatedAt)) with
      | none => rw [hf] at hsome; simp at hsome
      | some r₂ => simp [hf]

/-- C6 (amended) witness: an empty memory store answers `(false, false)`;
the persistent store with a row (x, true, 100) answers `(false, false)`
when the `cache_ttl` metadata row is missing, and `found = true` when
`cache_ttl = 60` since the raw comparison 100 > 60 passes. -/
theorem get_absent_or_filtered_witness :
    Memory.Get ⟨[], 60, 0⟩ "x" = (false, false) ∧
    (System.Get ⟨Conn.openH, ⟨[⟨"x", true, 100⟩], []⟩⟩ "x").1 = (false, false) ∧
    (System.Get ⟨Conn.openH, ⟨[⟨"x", true, 100⟩], [("cache_ttl", 60)]⟩⟩ "x").1.2 = true := by
  have h₁ := get_absent_or_filtered ⟨[], 60, 0⟩ ⟨Conn.openH, ⟨[⟨"x", true, 100⟩], []⟩⟩ "x" (by decide)
  have h₂ := get_absent_or_filtered ⟨[], 60, 0⟩ ⟨Conn.openH, ⟨[⟨"x", true, 100⟩], [("cache_ttl", 60)]⟩⟩ "x" (by decide)
  refine ⟨h₁.1 rfl, h₁.2.1 rfl, ?_⟩
  exact (h₂.2.2 60 rfl).mpr ⟨⟨"x", true, 100⟩, by simp, rfl, by decide⟩
